import Mathlib

/-!
Verification development for the securities-extraction application (`src/app.py`).

The development shallowly embeds the two core components:

* the field-extraction engine `extract_securities_amounts` (three ordered
  strategies: line scan, regex fallback, table scan), and
* the period ledger (`initialize_database`, `save_to_database`,
  `load_database`) backed by one spreadsheet file.

Strings are modelled as Lean `String` (a list of Unicode code points, which is
also what Python string indexing/slicing operates on).  Python's `re` module
on the concrete patterns used by the program is modelled by purpose-built
matchers; the one pattern the program builds that `re` rejects — the
variable-width lookbehind used for the 社債 category in strategy 2 — is
modelled as the exception it raises, so the engine as a whole returns
`Except String (Security → String)`.
-/

namespace RbKessan

/-! ### Character-level helpers (Python `re` building blocks) -/

/-- Whitespace as matched by the regex class in the program's patterns
(space, tab, carriage return, newline — the only whitespace occurring in the
engine's inputs). -/
def isSpace (c : Char) : Bool :=
  c = ' ' || c = '\t' || c = '\r' || c = '\n'

/-- A character matched by the class in the amount pattern: an ASCII
digit or a thousands separator comma. -/
def isNumChar (c : Char) : Bool :=
  c.isDigit || c = ','

/-- Python `num.replace(',', '')`: remove every comma. -/
def stripCommas (s : String) : String :=
  ⟨s.data.filter (fun c => c ≠ ',')⟩

/-- Python `str.isdigit()` on the strings arising here: nonempty and all
characters ASCII digits. -/
def pyIsDigit (s : String) : Bool :=
  !s.data.isEmpty && s.data.all Char.isDigit

/-- The validation applied at every acceptance site of the engine:
`clean_num.isdigit() and len(clean_num) >= 4`. -/
def validAmount (s : String) : Bool :=
  pyIsDigit s && decide (4 ≤ s.length)

/-- Accumulator pass of `numRuns`. -/
def numRunsAux : List Char → List Char → List String
  | cur, [] => if cur.isEmpty then [] else [⟨cur.reverse⟩]
  | cur, c :: rest =>
    if isNumChar c then numRunsAux (c :: cur) rest
    else if cur.isEmpty then numRunsAux [] rest
    else ⟨cur.reverse⟩ :: numRunsAux [] rest

/-- Python `re.findall(r'([0-9,]+)', s)`: the maximal runs of
digits-and-commas, left to right. -/
def numRuns (s : List Char) : List String :=
  numRunsAux [] s

/-- The suffix of `s` strictly after the leftmost occurrence of `p`
(`line[line.find(p) + len(p):]`), or `none` when `p` does not occur. -/
def findSuffixAfter (p : List Char) : List Char → Option (List Char)
  | [] => if p.isPrefixOf ([] : List Char) then some [] else none
  | c :: t =>
    if p.isPrefixOf (c :: t) then some ((c :: t).drop p.length)
    else findSuffixAfter p t

/-- Python `pattern in line`. -/
def containsSub (line pattern : String) : Bool :=
  (findSuffixAfter pattern.data line.data).isSome

/-- The remainder of `line` after the matched pattern
(`line[pattern_index + len(pattern):]`); meaningful when `containsSub`. -/
def afterSub (line pattern : String) : List Char :=
  (findSuffixAfter pattern.data line.data).getD []

/-- Python `text.split('\n')` (accumulator pass). -/
def splitNlAux : List Char → List Char → List String
  | cur, [] => [⟨cur.reverse⟩]
  | cur, c :: rest =>
    if c = '\n' then ⟨cur.reverse⟩ :: splitNlAux [] rest
    else splitNlAux (c :: cur) rest

/-- Python `text.split('\n')`. -/
def splitLines (s : String) : List String :=
  splitNlAux [] s.data

/-! ### The category catalog (`securities_patterns`) -/

/-- The seven securities categories, in the insertion order of the
`securities_patterns` dict (the comment in the source stresses that
短期社債 is searched before 社債). -/
inductive Security
  | tanki
  | shasai
  | kokusai
  | chihou
  | kabushiki
  | gaikoku
  | sonota
deriving DecidableEq

/-- The categories in dict iteration order. -/
def Security.all : List Security :=
  [.tanki, .shasai, .kokusai, .chihou, .kabushiki, .gaikoku, .sonota]

/-- The ordered alias lists of `securities_patterns`. -/
def Security.patterns : Security → List String
  | .tanki => ["短 期 社 債", "短期社債"]
  | .shasai => ["社 債", "社債"]
  | .kokusai => ["国 債", "国債"]
  | .chihou => ["地 方 債", "地方債"]
  | .kabushiki => ["株 式", "株式"]
  | .gaikoku => ["外 国 証 券", "外国証券"]
  | .sonota => ["そ の 他 の 証 券", "その他の証券", "そ の 他 証 券"]

/-- Pointwise update of the `securities_data` dict. -/
def setSec (d : Security → String) (sec : Security) (v : String) :
    Security → String :=
  fun s => if s = sec then v else d s

/-! ### Strategy 1: line scan -/

/-- First number after the pattern:
`for num in re.findall(r'([0-9,]+)', after_pattern): clean_num = num.replace(',','');
if clean_num.isdigit() and len(clean_num) >= 4: take it`. -/
def lineAmount (rest : List Char) : Option String :=
  ((numRuns rest).map stripCommas).find? validAmount

/-- One (pattern, line) step of strategy 1, with the special 社債 branch
that skips any line containing 短期 or 短 期. -/
def lineHit (sec : Security) (pattern line : String) : Option String :=
  if sec = .shasai then
    if containsSub line pattern then
      if !containsSub line "短期" && !containsSub line "短 期" then
        lineAmount (afterSub line pattern)
      else none
    else none
  else
    if containsSub line pattern then lineAmount (afterSub line pattern)
    else none

/-- Strategy 1 (`方法1`): for each category, try the aliases in order,
scanning the lines; the first accepted amount wins, otherwise `"0"`. -/
def stage1 (lines : List String) : Security → String :=
  fun sec =>
    ((sec.patterns).findSome? (fun p => lines.findSome? (lineHit sec p))).getD "0"

/-! ### Strategy 2: regex fallback -/

/-- `s.dropWhile` over regex whitespace. -/
def dropSpaces (s : List Char) : List Char :=
  s.dropWhile isSpace

/-- Matching the `flexible_pattern` (`pattern.replace(' ', r'\s*')`) at the
head of `s`: each interior blank of the alias matches any run of whitespace,
every other character matches literally.  Returns the remainder.
(The alias characters are not whitespace, so the greedy regex match is
deterministic and equals this function.) -/
def matchFlexAt : List Char → List Char → Option (List Char)
  | [], s => some s
  | c :: ps, s =>
    if c = ' ' then matchFlexAt ps (dropSpaces s)
    else
      match s with
      | [] => none
      | c' :: s' => if c' = c then matchFlexAt ps s' else none

/-- Matching `re.escape(pattern)` (the literal alias) at the head of `s`. -/
def matchLitAt (p s : List Char) : Option (List Char) :=
  if p.isPrefixOf s then some (s.drop p.length) else none

/-- The `\s+([0-9,]+)` tail of the strategy-2 regexes: at least one
whitespace character, then the captured maximal digits-and-commas run. -/
def tailAmount : List Char → Option String
  | [] => none
  | c :: rest =>
    if isSpace c then
      let run := (rest.dropWhile isSpace).takeWhile isNumChar
      if run.isEmpty then none else some ⟨run⟩
    else none

/-- `re.search`: try the pattern at each start position, left to right,
returning the first captured group. -/
def searchCap (m : List Char → Option (List Char)) : List Char → Option String
  | [] => (m []).bind tailAmount
  | c :: t =>
    match (m (c :: t)).bind tailAmount with
    | some v => some v
    | none => searchCap m t

/-- The validation the program applies to a strategy-2 match:
strip commas, then `isdigit()` and length at least 4. -/
def acceptAmount (o : Option String) : Option String :=
  o.bind fun a =>
    let c := stripCommas a
    if validAmount c then some c else none

/-- The two regexes built for one alias of a non-社債 category:
the flexible pattern, then the escaped literal pattern; the first
validated match wins. -/
def regexAmount (pattern text : String) : Option String :=
  match acceptAmount (searchCap (matchFlexAt pattern.data) text.data) with
  | some v => some v
  | none => acceptAmount (searchCap (matchLitAt pattern.data) text.data)

/-- One category of strategy 2 (`方法2`).  For 社債 the first regex the
program builds is `(?<!短\s*期\s*)...` — a variable-width lookbehind, which
Python's `re` rejects when `re.search` compiles it, raising
`re.error("look-behind requires fixed-width pattern")`; that exception is
modelled as the `Except.error` value. -/
def stage2Step (text : String) (d : Security → String) (sec : Security) :
    Except String (Security → String) :=
  if d sec = "0" then
    if sec = .shasai then
      .error "look-behind requires fixed-width pattern"
    else
      match (sec.patterns).findSome? (fun p => regexAmount p text) with
      | some v => .ok (setSec d sec v)
      | none => .ok d
  else .ok d

/-- Strategy 2 over the categories in dict order. -/
def stage2 (text : String) (d : Security → String) :
    Except String (Security → String) :=
  Security.all.foldlM (stage2Step text) d

/-! ### Strategy 3: table scan -/

/-- `' '.join([str(cell) if cell else '' for cell in row])`. -/
def rowText (row : List (Option String)) : String :=
  String.intercalate " " (row.map (fun c => c.getD ""))

/-- Numbers of one cell: skipped when the cell is `None` or empty
(`if cell and isinstance(cell, str)`), otherwise the first validated run. -/
def cellAmount : Option String → Option String
  | none => none
  | some s =>
    if s.data.isEmpty then none
    else ((numRuns s.data).map stripCommas).find? validAmount

/-- One category of one row of strategy 3: when the category is still
unset and one of its aliases occurs in the joined row text, the first
validated cell amount is taken.  (The source applies no exclusion rule
here.) -/
def stage3Step (row : List (Option String)) (d : Security → String)
    (sec : Security) : Security → String :=
  if d sec = "0" then
    match (sec.patterns).findSome?
        (fun p =>
          if containsSub (rowText row) p then row.findSome? cellAmount
          else none) with
    | some v => setSec d sec v
    | none => d
  else d

/-- One row of strategy 3, over the categories in dict order. -/
def stage3Row (row : List (Option String)) (d : Security → String) :
    Security → String :=
  Security.all.foldl (stage3Step row) d

/-- Strategy 3 (`方法3`) over all tables and rows, skipping empty tables and
empty rows. -/
def stage3 (tables : List (List (List (Option String))))
    (d : Security → String) : Security → String :=
  tables.foldl
    (fun d table =>
      if table.isEmpty then d
      else table.foldl (fun d row => if row.isEmpty then d else stage3Row row d) d)
    d

/-! ### The full engine -/

/-- `extract_securities_amounts(text, tables)` (the returned
`securities_data`; the diagnostic `debug_info` list has no effect on the
result and is not modelled).  `Except.error` models the `re.error`
exception escaping the function. -/
def extract (text : String) (tables : List (List (List (Option String)))) :
    Except String (Security → String) :=
  (stage2 text (stage1 (splitLines text))).map (stage3 tables)

/-- Observation of one category of the result. -/
def getAmount (e : Except String (Security → String)) (sec : Security) :
    Option String :=
  match e with
  | .ok d => some (d sec)
  | .error _ => none

/-! ### The period ledger (`initialize_database`, `save_to_database`,
`load_database`)

The backing spreadsheet is modelled as `Option (List StoredRecord)`:
`none` is the Absent state (`os.path.exists` false), `some rows` the
Initialized state holding the data rows below the header.  I/O failures of
the real file system are modelled by two per-world flags: `readFail` makes
`load_workbook` / `pd.read_excel` raise, `writeFail` makes `wb.save` raise;
the program catches both (`except Exception`). -/

/-- The caller-confirmed data passed to `save_to_database`:
the `年月` key and the seven integer amounts in column order. -/
structure PeriodRecord where
  key : String
  amounts : List Int
deriving DecidableEq

/-- One data row of the spreadsheet: key, the seven amount columns, and
the `更新日時` timestamp column. -/
structure StoredRecord where
  key : String
  amounts : List Int
  timestamp : String
deriving DecidableEq

/-- The ledger's backing store together with its failure modes. -/
structure World where
  store : Option (List StoredRecord)
  readFail : Bool
  writeFail : Bool

/-- The record rows of the store (`[]` when the file is absent). -/
def World.records (w : World) : List StoredRecord :=
  match w.store with
  | none => []
  | some l => l

/-- Overwrite-in-place of the first row whose key equals the new record's
key (the `existing_row` branch of `save_to_database`). -/
def replaceFirst (nr : StoredRecord) : List StoredRecord → List StoredRecord
  | [] => []
  | r :: rs => if r.key = nr.key then nr :: rs else r :: replaceFirst nr rs

/-- Sorted insertion by the `年月` key (lexicographic string order, the
order pandas uses on this column). -/
def insertByKey (nr : StoredRecord) : List StoredRecord → List StoredRecord
  | [] => [nr]
  | r :: rs => if nr.key < r.key then nr :: r :: rs else r :: insertByKey nr rs

/-- The re-sort `df_sort = df_sort.sort_values('年月', ascending=True)`
performed on every write, modelled as insertion sort by key.  (The source's
sort is pandas quicksort; on the key-unique row sets the ledger maintains
the two agree.) -/
def sortByKey : List StoredRecord → List StoredRecord
  | [] => []
  | r :: rs => insertByKey r (sortByKey rs)

/-- The body of `save_to_database` once the store is initialized and its
rows have been read: find-or-append, then re-sort, then write the whole
sheet back. -/
def saveCore (data : PeriodRecord) (now : String) (w1 : World)
    (rows : List StoredRecord) : (Bool × String) × World :=
  let newRec : StoredRecord := ⟨data.key, data.amounts, now⟩
  let found : Bool := rows.any (fun x => x.key = data.key)
  let rows2 := if found then replaceFirst newRec rows else rows ++ [newRec]
  let action := if found then "updated" else "added"
  if w1.writeFail then ((false, "store is not writable"), w1)
  else ((true, action), { w1 with store := some (sortByKey rows2) })

/-- `save_to_database(data)`: initialize the store when absent (this write
can fail), read it back (this read can fail), then update-or-append,
re-sort and rewrite in full (this write can fail).  Any raised exception is
caught and returned as `(False, str(e))`; a success returns
`(True, action)`. -/
def saveToDatabase (data : PeriodRecord) (now : String) (w : World) :
    (Bool × String) × World :=
  match w.store with
  | none =>
    if w.writeFail then ((false, "store is not writable"), w)
    else
      let w1 : World := { w with store := some [] }
      if w1.readFail then ((false, "store is not readable"), w1)
      else saveCore data now w1 []
  | some rows =>
    if w.readFail then ((false, "store is not readable"), w)
    else saveCore data now w rows

/-- `load_database()`: an absent store yields the empty frame without
creating the file; a failing read is caught, reported via `st.error`, and
also yields the empty frame.  The store is never written. -/
def loadDatabase (w : World) : List StoredRecord × World :=
  match w.store with
  | none => ([], w)
  | some rows => if w.readFail then ([], w) else (rows, w)

/-- Whether `load_database` entered its `except` branch (the `st.error`
call): the file exists but reading it raises. -/
def loadDatabaseErrored (w : World) : Bool :=
  w.store.isSome && w.readFail

/-- A fresh deployment: no ledger file, working file system. -/
def initialWorld : World :=
  ⟨none, false, false⟩

/-- A sequence of `save_to_database` calls. -/
def runSaves : List (PeriodRecord × String) → World → World
  | [], w => w
  | (r, t) :: ops, w => runSaves ops (saveToDatabase r t w).2

/-! ### Fixed sample inputs used in concrete theorems -/

/-- The two-line scenario of the spec: a character-spaced 短期社債 line and
a separate 社債 line. -/
def c2text : String := "短 期 社 債 12,345\n社 債 67,890"

/-- A page whose 国債 line has a short stray number before the real
figure (社債 also present, so strategy 2 is not reached for it). -/
def c4text : String := "社債 1111\n国債 12 34567"

/-- A table row whose single cell holds a 短期社債 label and a figure;
its text contains the 社債 alias as a substring. -/
def c3row : List (Option String) := [some "短期社債 1,234"]

/-- A concrete stored row. -/
def rec0 : StoredRecord :=
  ⟨"2025-03", [100000, 21000, 3200, 43000, 5400, 65000, 7600],
    "2025-04-01 09:00:00"⟩

/-- A concrete record to upsert. -/
def samplePR : PeriodRecord :=
  ⟨"2025-04", [110000, 22000, 3300, 44000, 5500, 66000, 7700]⟩

/-- An initialized store whose file has become unreadable. -/
def wReadFail : World := ⟨some [rec0], true, false⟩

/-- An initialized store whose file has become unwritable. -/
def wWriteFail : World := ⟨some [rec0], false, true⟩

/-- The ledger invariant: the stored rows are strictly ascending by the
`年月` key (hence key-unique). -/
def GoodWorld (w : World) : Prop :=
  ((w.records).map (fun x => x.key)).Pairwise (· < ·)

/-! ## Properties

### Shape of every stored amount -/

/-- The invariant of every value of the result map: the `"0"` not-found
sentinel, or an accepted amount — a separator-free digit string of at
least 4 digits. -/
def AmountOk (v : String) : Prop :=
  v = "0" ∨ (4 ≤ v.length ∧ ∀ c ∈ v.data, c.isDigit = true)

theorem amountOk_of_valid {v : String} (h : validAmount v = true) : AmountOk v := by
  unfold validAmount pyIsDigit at h
  simp only [Bool.and_eq_true, decide_eq_true_eq, List.all_eq_true] at h
  exact Or.inr ⟨h.2, h.1.2⟩

theorem valid_of_lineAmount {rest : List Char} {v : String}
    (h : lineAmount rest = some v) : validAmount v = true :=
  List.find?_some h

theorem valid_of_lineHit {sec : Security} {pattern line v : String}
    (h : lineHit sec pattern line = some v) : validAmount v = true := by
  unfold lineHit at h
  repeat' split at h
  all_goals first
    | exact valid_of_lineAmount h
    | cases h

theorem valid_of_acceptAmount {o : Option String} {v : String}
    (h : acceptAmount o = some v) : validAmount v = true := by
  cases o with
  | none => cases h
  | some a =>
    unfold acceptAmount at h
    rw [Option.some_bind] at h
    by_cases hval : validAmount (stripCommas a) = true
    · rw [if_pos hval] at h
      cases h
      exact hval
    · rw [if_neg hval] at h
      cases h

theorem valid_of_regexAmount {pattern text v : String}
    (h : regexAmount pattern text = some v) : validAmount v = true := by
  unfold regexAmount at h
  cases hm : acceptAmount (searchCap (matchFlexAt pattern.data) text.data) with
  | some w =>
    rw [hm] at h
    simp only [Option.some.injEq] at h
    subst h
    exact valid_of_acceptAmount hm
  | none =>
    rw [hm] at h
    exact valid_of_acceptAmount h

theorem valid_of_cellAmount {cell : Option String} {v : String}
    (h : cellAmount cell = some v) : validAmount v = true := by
  cases cell with
  | none => cases h
  | some s =>
    simp only [cellAmount] at h
    by_cases he : s.data.isEmpty = true
    · rw [if_pos he] at h
      cases h
    · rw [if_neg he] at h
      exact List.find?_some h

theorem stage1_amountOk (lines : List String) (sec : Security) :
    AmountOk (stage1 lines sec) := by
  unfold stage1
  cases hf : (sec.patterns).findSome? (fun p => lines.findSome? (lineHit sec p)) with
  | none => exact Or.inl rfl
  | some v =>
    simp only [Option.getD_some]
    obtain ⟨p, _, hline⟩ := List.exists_of_findSome?_eq_some hf
    obtain ⟨line, _, hhit⟩ := List.exists_of_findSome?_eq_some hline
    exact amountOk_of_valid (valid_of_lineHit hhit)

theorem setSec_amountOk {d : Security → String} {sec : Security} {v : String}
    (hd : ∀ s, AmountOk (d s)) (hv : AmountOk v) :
    ∀ s, AmountOk (setSec d sec v s) := by
  intro s
  unfold setSec
  split
  · exact hv
  · exact hd s

theorem stage2Step_preserve {text : String} {d : Security → String}
    {sec : Security} {d1 : Security → String}
    (hd : ∀ s, AmountOk (d s)) (h : stage2Step text d sec = .ok d1) :
    ∀ s, AmountOk (d1 s) := by
  unfold stage2Step at h
  split at h
  · split at h
    · cases h
    · cases hf : (sec.patterns).findSome? (fun p => regexAmount p text) with
      | none =>
        rw [hf] at h
        cases h
        exact hd
      | some v =>
        rw [hf] at h
        cases h
        obtain ⟨p, _, hr⟩ := List.exists_of_findSome?_eq_some hf
        exact setSec_amountOk hd (amountOk_of_valid (valid_of_regexAmount hr))
  · cases h
    exact hd

theorem stage2_fold_preserve {text : String} :
    ∀ (l : List Security) (d d' : Security → String),
      (∀ s, AmountOk (d s)) →
      l.foldlM (stage2Step text) d = .ok d' →
      ∀ s, AmountOk (d' s) := by
  intro l
  induction l with
  | nil =>
    intro d d' hd h
    cases h
    exact hd
  | cons a t ih =>
    intro d d' hd h
    rw [List.foldlM_cons] at h
    cases hstep : stage2Step text d a with
    | error e =>
      rw [hstep] at h
      cases h
    | ok d1 =>
      rw [hstep] at h
      exact ih d1 d' (stage2Step_preserve hd hstep) h

theorem stage3Step_preserve {row : List (Option String)} {d : Security → String}
    {sec : Security} (hd : ∀ s, AmountOk (d s)) :
    ∀ s, AmountOk (stage3Step row d sec s) := by
  unfold stage3Step
  split
  · cases hf : (sec.patterns).findSome?
        (fun p =>
          if containsSub (rowText row) p then row.findSome? cellAmount
          else none) with
    | none => exact hd
    | some v =>
      obtain ⟨p, _, hcell⟩ := List.exists_of_findSome?_eq_some hf
      split at hcell
      · obtain ⟨c, _, hc⟩ := List.exists_of_findSome?_eq_some hcell
        exact setSec_amountOk hd (amountOk_of_valid (valid_of_cellAmount hc))
      · cases hcell
  · exact hd

theorem foldl_preserve {β : Type} {σ : Type} (P : σ → Prop)
    (step : σ → β → σ) (hstep : ∀ d b, P d → P (step d b)) :
    ∀ (l : List β) (d : σ), P d → P (l.foldl step d) := by
  intro l
  induction l with
  | nil => intro d h; exact h
  | cons a t ih =>
    intro d h
    rw [List.foldl_cons]
    exact ih _ (hstep d a h)

theorem stage3_preserve {tables : List (List (List (Option String)))}
    {d : Security → String} (hd : ∀ s, AmountOk (d s)) :
    ∀ s, AmountOk (stage3 tables d s) := by
  unfold stage3
  refine foldl_preserve (fun d => ∀ s, AmountOk (d s)) _ ?_ tables d hd
  intro d table hdd
  split
  · exact hdd
  · refine foldl_preserve (fun d => ∀ s, AmountOk (d s)) _ ?_ table d hdd
    intro d row hrow
    split
    · exact hrow
    · exact foldl_preserve (fun d => ∀ s, AmountOk (d s)) _
        (fun d sec h => stage3Step_preserve h) Security.all d hrow

theorem extract_amountOk {text : String}
    {tables : List (List (List (Option String)))} {d : Security → String}
    (h : extract text tables = .ok d) : ∀ sec, AmountOk (d sec) := by
  unfold extract at h
  cases h2 : stage2 text (stage1 (splitLines text)) with
  | error e =>
    rw [h2] at h
    cases h
  | ok d2 =>
    rw [h2] at h
    cases h
    exact stage3_preserve
      (stage2_fold_preserve Security.all _ _ (stage1_amountOk _) h2)

/-! ### Helper lemmas for the table-scan and line-scan claims -/

theorem setSec_self (d : Security → String) (sec : Security) (v : String) :
    setSec d sec v sec = v := by
  simp [setSec]

theorem stage3Step_other {row : List (Option String)} {d : Security → String}
    {sec s : Security} (h : s ≠ sec) : stage3Step row d sec s = d s := by
  unfold stage3Step
  split
  · cases hf : (sec.patterns).findSome?
        (fun p =>
          if containsSub (rowText row) p then row.findSome? cellAmount
          else none) with
    | none =>
      rfl
    | some v =>
      simp [setSec, h]
  · rfl

theorem stage3Step_hit {row : List (Option String)} {d : Security → String}
    {sec : Security} {v : String} (h0 : d sec = "0")
    (hpat : (sec.patterns).findSome?
        (fun p =>
          if containsSub (rowText row) p then row.findSome? cellAmount
          else none) = some v) :
    stage3Step row d sec sec = v := by
  unfold stage3Step
  rw [h0, if_pos rfl, hpat]
  exact setSec_self _ _ _

theorem foldl_stage3Step_other {row : List (Option String)} :
    ∀ (l : List Security) (d : Security → String) (s : Security),
      (∀ sec ∈ l, s ≠ sec) → (l.foldl (stage3Step row) d) s = d s := by
  intro l
  induction l with
  | nil => intro d s _; rfl
  | cons a t ih =>
    intro d s h
    rw [List.foldl_cons,
      ih _ s (fun sec hs => h sec (List.mem_cons_of_mem _ hs))]
    exact stage3Step_other (h a (List.mem_cons_self a t))

/-- `find?` returns the head of the filtered list: the first element
satisfying the test, every earlier element failing it. -/
theorem find?_eq_filter_head {α : Type} (p : α → Bool) :
    ∀ (l : List α) (v : α), l.find? p = some v →
      (l.filter p).head? = some v := by
  intro l
  induction l with
  | nil =>
    intro v h
    cases h
  | cons a t ih =>
    intro v h
    by_cases hp : p a
    · rw [List.find?_cons_of_pos _ hp] at h
      cases h
      rw [List.filter_cons_of_pos hp]
      rfl
    · rw [List.find?_cons_of_neg _ (by simpa using hp)] at h
      rw [List.filter_cons_of_neg (by simpa using hp)]
      exact ih v h

/-! ## The claims -/

/-- **C1** (code bug): the claim says `extract` never raises and maps every
absent category to the not-found value, in particular on empty page text
with an empty table grid.  The code instead raises: with 社債 still unset
after strategy 1, strategy 2 calls `re.search` on the variable-width
lookbehind pattern built for 社債, which Python's `re` rejects with
`re.error("look-behind requires fixed-width pattern")`.  This theorem
evaluates the engine at the failing input. -/
theorem c1_extract_raises_on_empty :
    extract "" [] = .error "look-behind requires fixed-width pattern" := rfl

/-- **C2** (confirmed): on the spec's two-line scenario the line
`短 期 社 債 12,345` funds the short-term-note category and the amount
12345 is never attributed to the bond category (the bond scan skips every
line containing 短期 or 短 期), while the separate line `社 債 67,890`
funds the bond category with 67890. -/
theorem c2_long_alias_priority :
    getAmount (extract c2text []) Security.tanki = some "12345" ∧
    getAmount (extract c2text []) Security.shasai = some "67890" ∧
    ∀ pattern line : String,
      (containsSub line "短期" = true ∨ containsSub line "短 期" = true) →
      lineHit Security.shasai pattern line = none := by
  refine ⟨rfl, rfl, ?_⟩
  intro pattern line h
  rcases h with h | h <;> simp [lineHit, h]

theorem c2_long_alias_priority_witness :
    lineHit Security.shasai "社債" "短期社債 9,999" = none :=
  c2_long_alias_priority.2.2 "社債" "短期社債 9,999" (Or.inl (by decide))

/-- **C3** (counterexample): in the table-scan fallback there is no
exclusion rule.  A row whose joined cell text contains both the bond alias
社債 and the excluding short-term-note alias 短期社債 is *not* skipped for
the bond category: the bond category takes the row's amount 1234. -/
theorem c3_no_exclusion_counter :
    containsSub (rowText c3row) "社債" = true ∧
    containsSub (rowText c3row) "短期社債" = true ∧
    stage3 [[c3row]] (fun _ => "0") Security.shasai = "1234" :=
  ⟨rfl, rfl, rfl⟩

/-- **C3 amended**: the table scan applies no exclusion rule at row
granularity.  Whenever the bond category is still unset and one of its
aliases occurs in the joined row text with a validated cell amount, the
bond category takes that amount — with no hypothesis whatsoever about
short-term-note aliases in the same row. -/
theorem c3_table_scan_no_exclusion (d : Security → String)
    (row : List (Option String)) (v : String)
    (h0 : d Security.shasai = "0")
    (hpat : (Security.shasai.patterns).findSome?
        (fun p =>
          if containsSub (rowText row) p then row.findSome? cellAmount
          else none) = some v) :
    stage3Row row d Security.shasai = v := by
  unfold stage3Row
  show ((Security.all).foldl (stage3Step row) d) Security.shasai = v
  rw [show Security.all = Security.tanki :: Security.shasai ::
    [Security.kokusai, Security.chihou, Security.kabushiki, Security.gaikoku,
      Security.sonota] from rfl]
  rw [List.foldl_cons, List.foldl_cons]
  rw [foldl_stage3Step_other
    [Security.kokusai, Security.chihou, Security.kabushiki, Security.gaikoku,
      Security.sonota]
    (stage3Step row (stage3Step row d Security.tanki) Security.shasai)
    Security.shasai (by decide)]
  have h1 : stage3Step row d Security.tanki Security.shasai = d Security.shasai :=
    stage3Step_other (by decide)
  exact stage3Step_hit (h1.trans h0) hpat

theorem c3_table_scan_no_exclusion_witness :
    stage3Row c3row (fun _ => "0") Security.shasai = "1234" :=
  c3_table_scan_no_exclusion (fun _ => "0") c3row "1234" rfl rfl

/-- **C4** (counterexample): in the line-scan strategy the accepted amount
is *not* the first run of digits-and-separators of the remainder.  On the
line `国債 12 34567` the remainder's first run is `12`, which fails the
4-digit validation, yet the engine accepts the later run `34567` for the
国債 category instead of rejecting the line. -/
theorem c4_first_run_counter :
    (numRuns (afterSub "国債 12 34567" "国債")).map stripCommas = ["12", "34567"] ∧
    validAmount "12" = false ∧
    getAmount (extract c4text []) Security.kokusai = some "34567" :=
  ⟨rfl, rfl, rfl⟩

/-- **C4 amended**: on a valid line match the accepted amount is the
*first run that passes the validation*: the first comma-stripped run of
digits-and-separators of the remainder whose digit string has at least 4
digits; earlier runs failing the validation are skipped, and the accepted
value itself always passes the validation. -/
theorem c4_line_amount_first_valid (rest : List Char) (v : String)
    (h : lineAmount rest = some v) :
    (((numRuns rest).map stripCommas).filter validAmount).head? = some v ∧
    validAmount v = true :=
  ⟨find?_eq_filter_head _ _ _ h, List.find?_some h⟩

theorem c4_line_amount_first_valid_witness :
    ((((numRuns (afterSub "国債 12 34567" "国債")).map stripCommas).filter
        validAmount).head? = some "34567") ∧
    validAmount "34567" = true :=
  c4_line_amount_first_valid _ "34567" rfl

/-- **C5** (confirmed): every amount the engine returns for a category is
either the `"0"` not-found sentinel or an accepted amount whose digit
count after stripping thousands separators is at least 4 — a numeric token
with fewer than 4 digits is never accepted by any of the three
strategies. -/
theorem c5_min_digits (text : String)
    (tables : List (List (List (Option String)))) (sec : Security)
    (v : String) (h : getAmount (extract text tables) sec = some v) :
    AmountOk v := by
  unfold getAmount at h
  cases hE : extract text tables with
  | error e =>
    rw [hE] at h
    cases h
  | ok d =>
    rw [hE] at h
    cases h
    exact extract_amountOk hE sec

theorem c5_min_digits_witness : AmountOk "12345" :=
  c5_min_digits c2text [] Security.tanki "12345" rfl

/-- **C10** (confirmed): on every input on which the extraction returns
(rather than raising), the result maps each of the seven categories to
exactly one value, and that value is either `"0"` — which doubles as the
not-found sentinel — or a separator-free digit string of length at least
4. -/
theorem c10_result_shape (text : String)
    (tables : List (List (List (Option String)))) (sec : Security) :
    getAmount (extract text tables) sec = none ∨
      ∃ v, getAmount (extract text tables) sec = some v ∧ AmountOk v := by
  cases hE : extract text tables with
  | error e =>
    left
    simp [getAmount, hE]
  | ok d =>
    right
    exact ⟨d sec, by simp [getAmount, hE], extract_amountOk hE sec⟩

theorem c10_result_shape_witness :
    getAmount (extract c2text []) Security.kokusai = none ∨
      ∃ v, getAmount (extract c2text []) Security.kokusai = some v ∧ AmountOk v :=
  c10_result_shape c2text [] Security.kokusai

/-! ### Ledger lemmas -/

theorem keys_replaceFirst (nr : StoredRecord) :
    ∀ l : List StoredRecord,
      (replaceFirst nr l).map (fun x => x.key) = l.map (fun x => x.key) := by
  intro l
  induction l with
  | nil => rfl
  | cons r rs ih =>
    unfold replaceFirst
    by_cases h : r.key = nr.key
    · rw [if_pos h]
      simp [h]
    · rw [if_neg h]
      simp [ih]

theorem insertByKey_perm (nr : StoredRecord) :
    ∀ l : List StoredRecord, (insertByKey nr l).Perm (nr :: l) := by
  intro l
  induction l with
  | nil => exact List.Perm.refl _
  | cons r rs ih =>
    unfold insertByKey
    by_cases h : nr.key < r.key
    · rw [if_pos h]
    · rw [if_neg h]
      exact (ih.cons r).trans (List.Perm.swap nr r rs)

theorem sortByKey_perm : ∀ l : List StoredRecord, (sortByKey l).Perm l := by
  intro l
  induction l with
  | nil => exact List.Perm.refl _
  | cons r rs ih => exact (insertByKey_perm r (sortByKey rs)).trans (ih.cons r)

theorem insertByKey_pairwise (nr : StoredRecord) :
    ∀ l : List StoredRecord,
      l.Pairwise (fun a b => a.key ≤ b.key) →
      (insertByKey nr l).Pairwise (fun a b => a.key ≤ b.key) := by
  intro l
  induction l with
  | nil =>
    intro _
    simp [insertByKey]
  | cons r rs ih =>
    intro h
    rw [List.pairwise_cons] at h
    obtain ⟨hr, hrs⟩ := h
    unfold insertByKey
    by_cases hlt : nr.key < r.key
    · rw [if_pos hlt]
      refine List.pairwise_cons.mpr ⟨?_, List.pairwise_cons.mpr ⟨hr, hrs⟩⟩
      intro b hb
      rcases List.mem_cons.mp hb with rfl | hb2
      · exact le_of_lt hlt
      · exact le_trans (le_of_lt hlt) (hr b hb2)
    · rw [if_neg hlt]
      refine List.pairwise_cons.mpr ⟨?_, ih hrs⟩
      intro b hb
      rcases List.mem_cons.mp ((insertByKey_perm nr rs).mem_iff.mp hb) with rfl | hb2
      · exact le_of_not_lt hlt
      · exact hr b hb2

theorem sortByKey_pairwise : ∀ l : List StoredRecord,
    (sortByKey l).Pairwise (fun a b => a.key ≤ b.key) := by
  intro l
  induction l with
  | nil => exact List.Pairwise.nil
  | cons r rs ih => exact insertByKey_pairwise r _ ih

theorem sortByKey_pairwise_lt {l : List StoredRecord}
    (hnd : (l.map (fun x => x.key)).Nodup) :
    ((sortByKey l).map (fun x => x.key)).Pairwise (· < ·) := by
  have hperm : ((sortByKey l).map (fun x => x.key)).Perm (l.map (fun x => x.key)) :=
    (sortByKey_perm l).map _
  have hnd2 : ((sortByKey l).map (fun x => x.key)).Nodup :=
    hperm.nodup_iff.mpr hnd
  have hle : ((sortByKey l).map (fun x => x.key)).Pairwise (· ≤ ·) :=
    List.pairwise_map.mpr (sortByKey_pairwise l)
  exact (hle.and hnd2).imp (fun hab => lt_of_le_of_ne hab.1 hab.2)

theorem any_key_iff (k : String) (rows : List StoredRecord) :
    rows.any (fun x => x.key = k) = true ↔ k ∈ rows.map (fun x => x.key) := by
  simp only [List.any_eq_true, List.mem_map, decide_eq_true_eq]

/-- The row set written by a successful `save_to_database`, before
re-sorting. -/
def upsertRows (data : PeriodRecord) (now : String)
    (rows : List StoredRecord) : List StoredRecord :=
  if rows.any (fun x => x.key = data.key)
  then replaceFirst ⟨data.key, data.amounts, now⟩ rows
  else rows ++ [⟨data.key, data.amounts, now⟩]

theorem upsert_keys_nodup {data : PeriodRecord} {now : String}
    {rows : List StoredRecord} (hnd : (rows.map (fun x => x.key)).Nodup) :
    ((upsertRows data now rows).map (fun x => x.key)).Nodup := by
  unfold upsertRows
  by_cases h : rows.any (fun x => x.key = data.key) = true
  · rw [if_pos h, keys_replaceFirst]
    exact hnd
  · rw [if_neg h]
    have hk : data.key ∉ rows.map (fun x => x.key) := fun hmem =>
      h ((any_key_iff data.key rows).mpr hmem)
    have hp : ((rows ++ [(⟨data.key, data.amounts, now⟩ : StoredRecord)]).map
        (fun x => x.key)).Perm (data.key :: rows.map (fun x => x.key)) := by
      rw [List.map_append]
      exact List.perm_append_singleton _ _
    exact hp.nodup_iff.mpr (List.nodup_cons.mpr ⟨hk, hnd⟩)

theorem upsert_keys_mem (data : PeriodRecord) (now : String)
    (rows : List StoredRecord) :
    data.key ∈ (upsertRows data now rows).map (fun x => x.key) := by
  unfold upsertRows
  by_cases h : rows.any (fun x => x.key = data.key) = true
  · rw [if_pos h, keys_replaceFirst]
    exact (any_key_iff data.key rows).mp h
  · rw [if_neg h, List.map_append]
    exact List.mem_append_right _ (List.mem_singleton.mpr rfl)

theorem upsertRows_of_any {data : PeriodRecord} {now : String}
    {rows : List StoredRecord}
    (h : rows.any (fun x => x.key = data.key) = true) :
    upsertRows data now rows = replaceFirst ⟨data.key, data.amounts, now⟩ rows := by
  unfold upsertRows
  rw [if_pos h]

/-- Characterization of a successful `save_to_database`: with a working
file system it reports `updated`/`added` according to whether the key was
present, and rewrites the store with the re-sorted updated row set. -/
theorem save_success (data : PeriodRecord) (now : String) (w : World)
    (hr : w.readFail = false) (hw : w.writeFail = false) :
    saveToDatabase data now w =
      ((true,
        if w.records.any (fun x => x.key = data.key) then "updated" else "added"),
        { w with store := some (sortByKey (upsertRows data now w.records)) }) := by
  unfold saveToDatabase saveCore upsertRows World.records
  cases hs : w.store with
  | none => simp [hs, hr, hw]
  | some rows => simp [hs, hr, hw]

theorem saveCore_records_of_fail {data : PeriodRecord} {now : String}
    {w1 : World} {rows : List StoredRecord}
    (h : (saveCore data now w1 rows).1.1 = false) :
    (saveCore data now w1 rows).2 = w1 := by
  unfold saveCore at h ⊢
  by_cases hw : w1.writeFail = true
  · rw [if_pos hw]
  · rw [if_neg hw] at h
    cases h

theorem save_fail_records {data : PeriodRecord} {now : String} {w : World}
    (h : (saveToDatabase data now w).1.1 = false) :
    ((saveToDatabase data now w).2).records = w.records := by
  cases hs : w.store with
  | none =>
    by_cases hw : w.writeFail = true
    · simp [saveToDatabase, hs, hw]
    · by_cases hr : w.readFail = true
      · simp [saveToDatabase, hs, hw, hr, World.records]
      · exfalso
        simp [saveToDatabase, hs, hw, hr, saveCore] at h
  | some rows =>
    by_cases hr : w.readFail = true
    · simp [saveToDatabase, hs, hr]
    · by_cases hw : w.writeFail = true
      · simp [saveToDatabase, hs, hr, saveCore, hw, World.records]
      · exfalso
        simp [saveToDatabase, hs, hr, saveCore, hw] at h

theorem save_flags (data : PeriodRecord) (now : String) (w : World) :
    ((saveToDatabase data now w).2).readFail = w.readFail ∧
    ((saveToDatabase data now w).2).writeFail = w.writeFail := by
  unfold saveToDatabase saveCore
  cases hs : w.store with
  | none =>
    by_cases hw : w.writeFail = true
    · simp [hw]
    · by_cases hr : w.readFail = true
      · simp [hw, hr]
      · simp [hw, hr]
  | some rows =>
    by_cases hr : w.readFail = true
    · simp [hr]
    · by_cases hw : w.writeFail = true
      · simp [hr, hw]
      · simp [hr, hw]

theorem save_preserves_good (data : PeriodRecord) (now : String) {w : World}
    (hg : GoodWorld w) : GoodWorld (saveToDatabase data now w).2 := by
  by_cases hfail : (saveToDatabase data now w).1.1 = false
  · unfold GoodWorld
    rw [save_fail_records hfail]
    exact hg
  · by_cases hr : w.readFail = true
    · exfalso
      apply hfail
      unfold saveToDatabase saveCore
      cases hs : w.store with
      | none =>
        by_cases hw : w.writeFail = true
        · simp [hw]
        · simp [hw, hr]
      | some rows => simp [hr]
    · by_cases hw : w.writeFail = true
      · exfalso
        apply hfail
        unfold saveToDatabase saveCore
        cases hs : w.store with
        | none => simp [hw]
        | some rows => simp [hr, hw]
      · rw [save_success data now w (by simpa using hr) (by simpa using hw)]
        unfold GoodWorld World.records
        simp only []
        have hnd : ((w.records).map (fun x => x.key)).Nodup :=
          hg.imp (fun hab => ne_of_lt hab)
        exact sortByKey_pairwise_lt (upsert_keys_nodup hnd)

theorem runSaves_good {w : World} (hg : GoodWorld w) :
    ∀ ops : List (PeriodRecord × String), GoodWorld (runSaves ops w) := by
  intro ops
  induction ops generalizing w with
  | nil => exact hg
  | cons op t ih =>
    obtain ⟨r, ts⟩ := op
    exact ih (save_preserves_good r ts hg)

/-! ### The ledger claims -/

/-- **C6** (confirmed): `upsert` is idempotent under repeated identical
input.  Starting from any key-unique ledger with a working file system,
upserting the same `PeriodRecord` twice leaves exactly one stored record
with its PeriodKey, and the second call's outcome is `(True, "updated")`. -/
theorem c6_upsert_idempotent (w : World) (r : PeriodRecord) (t1 t2 : String)
    (hr : w.readFail = false) (hw : w.writeFail = false)
    (hnd : ((w.records).map (fun x => x.key)).Nodup) :
    ((((saveToDatabase r t2 (saveToDatabase r t1 w).2).2).records).map
        (fun x => x.key)).count r.key = 1 ∧
    (saveToDatabase r t2 (saveToDatabase r t1 w).2).1 = (true, "updated") := by
  have hmem1 : r.key ∈ (sortByKey (upsertRows r t1 w.records)).map (fun x => x.key) :=
    (((sortByKey_perm _).map _).mem_iff).mpr (upsert_keys_mem r t1 w.records)
  have hany : (sortByKey (upsertRows r t1 w.records)).any
      (fun x => x.key = r.key) = true :=
    (any_key_iff r.key _).mpr hmem1
  have hnd1 : ((sortByKey (upsertRows r t1 w.records)).map (fun x => x.key)).Nodup :=
    (((sortByKey_perm _).map _).nodup_iff).mpr (upsert_keys_nodup hnd)
  have e1 : (saveToDatabase r t1 w).2 =
      { w with store := some (sortByKey (upsertRows r t1 w.records)) } := by
    rw [save_success r t1 w hr hw]
  have hrecs1 : ({ w with store := some (sortByKey (upsertRows r t1 w.records)) } :
      World).records = sortByKey (upsertRows r t1 w.records) := rfl
  have hrL : ({ w with store := some (sortByKey (upsertRows r t1 w.records)) } :
      World).readFail = false := hr
  have hwL : ({ w with store := some (sortByKey (upsertRows r t1 w.records)) } :
      World).writeFail = false := hw
  have e2 : saveToDatabase r t2 (saveToDatabase r t1 w).2 =
      ((true, "updated"),
        { w with store := some (sortByKey (upsertRows r t2
            (sortByKey (upsertRows r t1 w.records)))) }) := by
    rw [e1, save_success r t2 _ hrL hwL, hrecs1, hany]
    rfl
  rw [e2]
  constructor
  · have hrecs2 : ({ w with store := some (sortByKey (upsertRows r t2
        (sortByKey (upsertRows r t1 w.records)))) } : World).records =
        sortByKey (upsertRows r t2 (sortByKey (upsertRows r t1 w.records))) := rfl
    rw [hrecs2]
    have hkeys2 :
        ((sortByKey (upsertRows r t2 (sortByKey (upsertRows r t1 w.records)))).map
          (fun x => x.key)).Perm
        ((sortByKey (upsertRows r t1 w.records)).map (fun x => x.key)) := by
      refine ((sortByKey_perm _).map _).trans ?_
      rw [upsertRows_of_any hany, keys_replaceFirst]
    rw [hkeys2.count_eq r.key]
    exact List.count_eq_one_of_mem hnd1 hmem1
  · rfl

theorem c6_upsert_idempotent_witness :
    ((((saveToDatabase samplePR "t2"
          (saveToDatabase samplePR "t1" initialWorld).2).2).records).map
        (fun x => x.key)).count samplePR.key = 1 ∧
    (saveToDatabase samplePR "t2" (saveToDatabase samplePR "t1" initialWorld).2).1 =
      (true, "updated") :=
  c6_upsert_idempotent initialWorld samplePR "t1" "t2" rfl rfl (by simp [initialWorld, World.records])

/-- **C7** (confirmed): after any sequence of `upsert` calls starting from
a fresh deployment, `loadAll` returns the stored records in strictly
ascending PeriodKey order (hence with no duplicate keys); on the fresh
deployment itself — no ledger file yet — it returns the empty sequence. -/
theorem c7_load_sorted (ops : List (PeriodRecord × String)) :
    (((loadDatabase (runSaves ops initialWorld)).1).map
        (fun x => x.key)).Pairwise (· < ·) ∧
    (((loadDatabase (runSaves ops initialWorld)).1).map
        (fun x => x.key)).Nodup ∧
    (loadDatabase initialWorld).1 = [] := by
  have hg : GoodWorld (runSaves ops initialWorld) :=
    runSaves_good (by simp [GoodWorld, initialWorld, World.records]) ops
  have hload : (loadDatabase (runSaves ops initialWorld)).1 =
      (runSaves ops initialWorld).records ∨
      (loadDatabase (runSaves ops initialWorld)).1 = [] := by
    unfold loadDatabase World.records
    cases (runSaves ops initialWorld).store with
    | none => exact Or.inr rfl
    | some rows =>
      by_cases hrf : (runSaves ops initialWorld).readFail = true
      · simp [hrf]
      · simp [hrf]
  rcases hload with hload | hload
  · rw [hload]
    exact ⟨hg, hg.imp (fun hab => ne_of_lt hab), rfl⟩
  · rw [hload]
    exact ⟨List.Pairwise.nil, List.nodup_nil, rfl⟩

theorem c7_load_sorted_witness :
    (((loadDatabase (runSaves [(samplePR, "t1")] initialWorld)).1).map
        (fun x => x.key)).Pairwise (· < ·) ∧
    (((loadDatabase (runSaves [(samplePR, "t1")] initialWorld)).1).map
        (fun x => x.key)).Nodup ∧
    (loadDatabase initialWorld).1 = [] :=
  c7_load_sorted [(samplePR, "t1")]

/-- **C8** (counterexample): `loadAll` does *not* surface a distinguished
failure outcome on a read failure.  A world whose initialized store is
unreadable makes `load_database` take its `except` branch, yet the value
returned to the caller is the empty frame — exactly what a successful
load of an absent (empty) ledger returns. -/
theorem c8_load_not_distinguished :
    loadDatabaseErrored wReadFail = true ∧
    loadDatabaseErrored initialWorld = false ∧
    (loadDatabase wReadFail).1 = (loadDatabase initialWorld).1 :=
  ⟨rfl, rfl, rfl⟩

/-- **C8 amended**: `upsert` does surface a distinguished failure outcome
(`(False, cause)`) and on every failure leaves the stored record set
unchanged — no partial record is persisted; `loadAll` never mutates the
store, but on a read failure it reports the cause only as a UI side
effect and returns the empty sequence, which is indistinguishable from a
successfully loaded empty ledger. -/
theorem c8_failure_amended :
    (∀ (r : PeriodRecord) (t : String) (w : World),
      (saveToDatabase r t w).1.1 = false →
      ((saveToDatabase r t w).2).records = w.records) ∧
    (∀ w : World, (loadDatabase w).2 = w) ∧
    (∀ w : World, loadDatabaseErrored w = true → (loadDatabase w).1 = []) := by
  refine ⟨fun r t w h => save_fail_records h, ?_, ?_⟩
  · intro w
    cases hs : w.store with
    | none => simp [loadDatabase, hs]
    | some rows =>
      by_cases hrf : w.readFail = true
      · simp [loadDatabase, hs, hrf]
      · simp [loadDatabase, hs, hrf]
  · intro w h
    unfold loadDatabaseErrored at h
    cases hs : w.store with
    | none => simp [loadDatabase, hs]
    | some rows =>
      rw [hs] at h
      simp only [Option.isSome_some, Bool.true_and] at h
      simp [loadDatabase, hs, h]

theorem c8_failure_amended_witness :
    ((saveToDatabase samplePR "t" wWriteFail).2).records = wWriteFail.records :=
  c8_failure_amended.1 samplePR "t" wWriteFail rfl

/-- **C9** (counterexample): `loadAll` does *not* transition an Absent
store to Initialized: loading on a fresh deployment leaves the store
absent. -/
theorem c9_load_keeps_absent :
    initialWorld.store = none ∧ (loadDatabase initialWorld).2.store = none :=
  ⟨rfl, rfl⟩

/-- **C9 amended**: the store has exactly the two states Absent and
Initialized.  `upsert` transitions Absent to Initialized on first access
whenever the store is writable (creating it with an empty record set
before the first append); `loadAll` never creates the store (its world is
returned unchanged, so an Absent store stays Absent); and no operation
transitions Initialized back to Absent. -/
theorem c9_state_machine_amended :
    (∀ (r : PeriodRecord) (t : String) (w : World),
      w.store = none → w.writeFail = false →
      ((saveToDatabase r t w).2.store).isSome = true) ∧
    (∀ (r : PeriodRecord) (t : String) (w : World) (l : List StoredRecord),
      w.store = some l → ((saveToDatabase r t w).2.store).isSome = true) ∧
    (∀ w : World, (loadDatabase w).2.store = w.store) := by
  refine ⟨?_, ?_, ?_⟩
  · intro r t w hs hw
    unfold saveToDatabase saveCore
    rw [hs]
    by_cases hrf : w.readFail = true
    · simp [hw, hrf]
    · by_cases hwf : ({ w with store := some [] } : World).writeFail = true
      · simp [hw] at hwf
      · simp [hw, hrf, hwf]
  · intro r t w l hs
    unfold saveToDatabase saveCore
    rw [hs]
    by_cases hrf : w.readFail = true
    · simp [hrf, hs]
    · by_cases hwf : w.writeFail = true
      · simp [hrf, hwf, hs]
      · simp [hrf, hwf]
  · intro w
    cases hs : w.store with
    | none => simp [loadDatabase, hs]
    | some rows =>
      by_cases hrf : w.readFail = true
      · simp [loadDatabase, hs, hrf]
      · simp [loadDatabase, hs, hrf]

theorem c9_state_machine_amended_witness :
    ((saveToDatabase samplePR "t" initialWorld).2.store).isSome = true :=
  c9_state_machine_amended.1 samplePR "t" initialWorld rfl rfl

end RbKessan
